import Mathlib

/-!
Shallow embedding of the wos-scopus bibliometric pipeline's record-matching
core (src/deduplication.py, src/normalization.py, src/scimago_utils.py,
src/sjr_analysis.py, src/main.py), together with theorems settling the
frozen claims about it.

Conventions of the embedding:
* pandas NaN / missing cells are `Option` values (`none` = NaN);
* the external fuzzy scorer (rapidfuzz `fuzz.WRatio`, `fuzz.token_sort_ratio`)
  is a parameter `scorer : String → String → Nat`, exactly as the source
  passes it as an argument to `process.extractOne`;
* Python `str.lower` / `str.strip` are the character-list maps `pyLower` /
  `pyStrip` below (the inputs of interest are ASCII);
* the reference corpus, kept by the source as parallel lists
  `_scopus_titles` / `_scopus_years` indexed consistently, is the list of
  pairs `(processed_title, year)`.
-/

namespace Pipeline

/-- `rapidfuzz.process.extractOne`: best-scoring element of a list, the
first one encountered winning ties; `none` on an empty list. -/
def extractOneBy {α : Type} (score : α → Nat) (choices : List α) : Option (α × Nat) :=
  choices.foldl
    (fun best c =>
      match best with
      | none => some (c, score c)
      | some (b, bs) => if score c > bs then some (c, score c) else some (b, bs))
    none

/-- One candidate record sent to a worker by `cross_deduplicate`
(`{"processed_title": ..., "year": ...}` in src/deduplication.py). -/
structure Candidate where
  title : String
  year : Option Int
deriving DecidableEq

/-- The per-row verdict of `process_chunk` (src/deduplication.py lines 62-100):
short titles are skipped, the best fuzzy match must reach the threshold, and
a known-year disagreement of more than 1 rejects the match. -/
def rowVerdict (scorer : String → String → Nat) (corpus : List (String × Option Int))
    (threshold : Nat) (c : Candidate) : Bool :=
  if c.title.length < 5 then false
  else
    match extractOneBy (fun e => scorer c.title e.1) corpus with
    | none => false
    | some (entry, score) =>
      if score < threshold then false
      else
        match c.year, entry.2 with
        | some wy, some sy => if (wy - sy).natAbs > 1 then false else true
        | _, _ => true

/-- `process_chunk` (src/deduplication.py lines 44-102): the set of
`processed_title`s of the chunk's rows that pass `rowVerdict`. -/
def processChunk (scorer : String → String → Nat) (corpus : List (String × Option Int))
    (threshold : Nat) (chunk : List Candidate) : Finset String :=
  chunk.foldl
    (fun acc c => if rowVerdict scorer corpus threshold c then insert c.title acc else acc)
    ∅

section ProcessChunkLemmas

variable {scorer : String → String → Nat} {corpus : List (String × Option Int)} {threshold : Nat}

theorem mem_foldl_insert {x : String} (p : Candidate → Bool) :
    ∀ (l : List Candidate) (acc : Finset String),
      x ∈ l.foldl (fun a c => if p c then insert c.title a else a) acc ↔
        x ∈ acc ∨ ∃ c ∈ l, p c ∧ c.title = x := by
  intro l
  induction l with
  | nil => simp
  | cons c t ih =>
    intro acc
    by_cases hp : p c
    · simp only [List.foldl_cons, hp, if_pos, ih, Finset.mem_insert, List.mem_cons]
      constructor
      · rintro (⟨h | h⟩ | h)
        · exact Or.inr ⟨c, Or.inl rfl, hp, h.symm⟩
        · exact Or.inl h
        · obtain ⟨d, hd, hpd, hdx⟩ := h
          exact Or.inr ⟨d, Or.inr hd, hpd, hdx⟩
      · rintro (h | ⟨d, hd | hd, hpd, hdx⟩)
        · exact Or.inl (Or.inr h)
        · exact Or.inl (Or.inl (hd ▸ hdx.symm))
        · exact Or.inr ⟨d, hd, hpd, hdx⟩
    · simp only [List.foldl_cons, hp, if_neg, Bool.false_eq_true, not_false_iff, ih,
        List.mem_cons]
      constructor
      · rintro (h | ⟨d, hd, hpd, hdx⟩)
        · exact Or.inl h
        · exact Or.inr ⟨d, Or.inr hd, hpd, hdx⟩
      · rintro (h | ⟨d, hd | hd, hpd, hdx⟩)
        · exact Or.inl h
        · rw [hd] at hpd; exact absurd hpd (by simp [hp])
        · exact Or.inr ⟨d, hd, hpd, hdx⟩

theorem mem_processChunk {x : String} {chunk : List Candidate} :
    x ∈ processChunk scorer corpus threshold chunk ↔
      ∃ c ∈ chunk, rowVerdict scorer corpus threshold c ∧ c.title = x := by
  unfold processChunk
  rw [mem_foldl_insert]
  simp

theorem processChunk_append (l₁ l₂ : List Candidate) :
    processChunk scorer corpus threshold (l₁ ++ l₂) =
      processChunk scorer corpus threshold l₁ ∪ processChunk scorer corpus threshold l₂ := by
  apply Finset.ext
  intro x
  simp only [mem_processChunk, Finset.mem_union, List.mem_append]
  constructor
  · rintro ⟨c, hc | hc, hv, ht⟩
    · exact Or.inl ⟨c, hc, hv, ht⟩
    · exact Or.inr ⟨c, hc, hv, ht⟩
  · rintro (⟨c, hc, hv, ht⟩ | ⟨c, hc, hv, ht⟩)
    · exact ⟨c, Or.inl hc, hv, ht⟩
    · exact ⟨c, Or.inr hc, hv, ht⟩

theorem foldl_union_processChunk :
    ∀ (chunks : List (List Candidate)) (acc : Finset String),
      chunks.foldl (fun a ch => a ∪ processChunk scorer corpus threshold ch) acc =
        acc ∪ processChunk scorer corpus threshold chunks.flatten := by
  intro chunks
  induction chunks with
  | nil =>
    intro acc
    simp only [List.foldl_nil, List.flatten_nil]
    rw [show processChunk scorer corpus threshold [] = ∅ from rfl, Finset.union_empty]
  | cons ch t ih =>
    intro acc
    simp only [List.foldl_cons, List.flatten_cons, ih, processChunk_append, Finset.union_assoc]

end ProcessChunkLemmas

/-- Python `str.lower()` on the ASCII identifiers this pipeline compares:
lower-case every character. -/
def pyLower (s : String) : String := String.mk (s.data.map Char.toLower)

/-- Python `str.strip()`: remove leading and trailing whitespace. -/
def pyStrip (s : String) : String :=
  String.mk (((s.data.dropWhile Char.isWhitespace).reverse.dropWhile
    Char.isWhitespace).reverse)

/-- One row of the Scopus reference DataFrame as `cross_deduplicate` reads it:
`DOI` (NaN = `none`, dropped by `.dropna()`), `processed_title`, and the
`Year` column coerced with `pd.to_numeric(..., errors="coerce")`. -/
structure ScopusRow where
  doi : Option String
  processed_title : String
  year : Option Int
deriving DecidableEq

/-- One row of the WoS candidate DataFrame as `cross_deduplicate` reads it.
`wrow.get("DOI", "")` defaults a missing identifier to `""`, hence
`doi.getD ""` below (the loaders already replaced NaN identifiers by `""`).
`pubYear` is the `Publication Year` column after numeric coercion. -/
structure WosRow where
  doi : Option String
  processed_title : String
  pubYear : Option Int
deriving DecidableEq

/-- Scopus identifier set (src/deduplication.py line 126-127): dropna,
lower-case, trim, and discard the empty string. -/
def scopusDois (scopus : List ScopusRow) : Finset String :=
  (((scopus.filterMap (·.doi)).map (fun s => pyStrip (pyLower s))).filter (· ≠ "")).toFinset

/-- Normalized candidate identifier: `str(wrow.get("DOI", "")).lower().strip()`. -/
def wosDoi (w : WosRow) : String := pyStrip (pyLower (w.doi.getD ""))

/-- Phase 1 of `cross_deduplicate` (lines 141-148): walk the WoS rows in
order; an identifier that is non-empty and present in the Scopus set flags
the row's `processed_title` as duplicate and records the row index. -/
def doiPhase (scopus : List ScopusRow) (wos : List WosRow) : Finset String × Finset Nat :=
  wos.enum.foldl
    (fun acc p =>
      if wosDoi p.2 ≠ "" ∧ wosDoi p.2 ∈ scopusDois scopus then
        (insert p.2.processed_title acc.1, insert p.1 acc.2)
      else acc)
    (∅, ∅)

/-- `[lst[i:i+cs] for i in range(0, len(lst), cs)]`. The `0` case is
unreachable in the source (`chunk_size = max(1, ...)`). -/
def chunksOf {α : Type} : Nat → List α → List (List α)
  | _, [] => []
  | 0, l => [l]
  | cs + 1, x :: t => ((x :: t).take (cs + 1)) :: chunksOf (cs + 1) ((x :: t).drop (cs + 1))
termination_by _ l => l.length
decreasing_by
  simp only [List.length_drop, List.length_cons]
  omega

/-- Candidate list for phase 2 (lines 156-175): WoS rows not already matched
by identifier, whose title is not already in the duplicate set, reduced to
`{processed_title, year}` with the year taken from `Publication Year`. -/
def fuzzyCandidates (scopus : List ScopusRow) (wos : List WosRow) : List Candidate :=
  ((wos.enum.filter
      (fun p =>
        !(decide (p.1 ∈ (doiPhase scopus wos).2)) &&
          !(decide (p.2.processed_title ∈ (doiPhase scopus wos).1)))).map
    (fun p => Candidate.mk p.2.processed_title p.2.pubYear))

/-- `cross_deduplicate` (src/deduplication.py lines 107-209), happy path:
identifier phase, then the fuzzy phase run over contiguous chunks of size
`max 1 (n / min cpuCount 8)` whose per-chunk sets are merged by union. -/
def crossDeduplicate (scorer : String → String → Nat) (scopus : List ScopusRow)
    (wos : List WosRow) (threshold : Nat) (cpuCount : Nat) : Finset String :=
  if scopus = [] ∨ wos = [] then ∅
  else
    let corpus := scopus.map (fun r => (r.processed_title, r.year))
    let dups := (doiPhase scopus wos).1
    let candidates := fuzzyCandidates scopus wos
    if candidates = [] then dups
    else
      let numWorkers := min cpuCount 8
      let chunkSize := max 1 (candidates.length / numWorkers)
      (chunksOf chunkSize candidates).foldl
        (fun acc ch => acc ∪ processChunk scorer corpus threshold ch) dups

theorem chunksOf_flatten {α : Type} (cs : Nat) (l : List α) : (chunksOf cs l).flatten = l := by
  induction cs, l using chunksOf.induct with
  | case1 _ => simp [chunksOf]
  | case2 l h => simp [chunksOf]
  | case3 cs x t ih =>
    rw [chunksOf]
    simp only [List.flatten_cons, ih, List.take_append_drop]

/-- `cross_deduplicate` reduced to its sequential meaning: the identifier-phase
duplicates united with the fuzzy verdicts over the whole candidate list. -/
theorem crossDeduplicate_eq (scorer : String → String → Nat) (scopus : List ScopusRow)
    (wos : List WosRow) (threshold : Nat) (cpuCount : Nat) :
    crossDeduplicate scorer scopus wos threshold cpuCount =
      if scopus = [] ∨ wos = [] then ∅
      else
        (doiPhase scopus wos).1 ∪
          processChunk scorer (scopus.map (fun r => (r.processed_title, r.year))) threshold
            (fuzzyCandidates scopus wos) := by
  unfold crossDeduplicate
  by_cases h : scopus = [] ∨ wos = []
  · simp [h]
  · simp only [h, if_neg, not_false_iff]
    by_cases hc : fuzzyCandidates scopus wos = []
    · rw [if_pos hc, hc]
      rw [show processChunk scorer (scopus.map (fun r => (r.processed_title, r.year))) threshold
          [] = ∅ from rfl, Finset.union_empty]
    · rw [if_neg hc, foldl_union_processChunk, chunksOf_flatten]

section DoiPhaseLemmas

theorem mem_scopusDois {s : String} {scopus : List ScopusRow} :
    s ∈ scopusDois scopus ↔
      s ≠ "" ∧ ∃ r ∈ scopus, ∃ d, r.doi = some d ∧ pyStrip (pyLower d) = s := by
  unfold scopusDois
  rw [List.mem_toFinset, List.mem_filter, List.mem_map]
  constructor
  · rintro ⟨⟨d, hd, hds⟩, hne⟩
    obtain ⟨r, hr, hrd⟩ := List.mem_filterMap.mp hd
    exact ⟨by simpa using hne, r, hr, d, hrd, hds⟩
  · rintro ⟨hne, r, hr, d, hrd, hds⟩
    exact ⟨⟨d, List.mem_filterMap.mpr ⟨r, hr, hrd⟩, hds⟩, by simpa using hne⟩

theorem doiPhase_foldl_spec (scopus : List ScopusRow) :
    ∀ (l : List (Nat × WosRow)) (acc : Finset String × Finset Nat),
      (∀ x : String,
        x ∈ (l.foldl
            (fun acc p =>
              if wosDoi p.2 ≠ "" ∧ wosDoi p.2 ∈ scopusDois scopus then
                (insert p.2.processed_title acc.1, insert p.1 acc.2)
              else acc) acc).1 ↔
          x ∈ acc.1 ∨ ∃ p ∈ l,
            (wosDoi p.2 ≠ "" ∧ wosDoi p.2 ∈ scopusDois scopus) ∧ p.2.processed_title = x) ∧
      (∀ i : Nat,
        i ∈ (l.foldl
            (fun acc p =>
              if wosDoi p.2 ≠ "" ∧ wosDoi p.2 ∈ scopusDois scopus then
                (insert p.2.processed_title acc.1, insert p.1 acc.2)
              else acc) acc).2 ↔
          i ∈ acc.2 ∨ ∃ p ∈ l,
            (wosDoi p.2 ≠ "" ∧ wosDoi p.2 ∈ scopusDois scopus) ∧ p.1 = i) := by
  intro l
  induction l with
  | nil => simp
  | cons q t ih =>
    intro acc
    by_cases hq : wosDoi q.2 ≠ "" ∧ wosDoi q.2 ∈ scopusDois scopus
    · constructor
      · intro x
        rw [List.foldl_cons, if_pos hq, (ih _).1]
        simp only [Finset.mem_insert, List.mem_cons]
        constructor
        · rintro (⟨h | h⟩ | ⟨p, hp, hc, he⟩)
          · exact Or.inr ⟨q, Or.inl rfl, hq, h.symm⟩
          · exact Or.inl h
          · exact Or.inr ⟨p, Or.inr hp, hc, he⟩
        · rintro (h | ⟨p, hp | hp, hc, he⟩)
          · exact Or.inl (Or.inr h)
          · exact Or.inl (Or.inl (hp ▸ he.symm))
          · exact Or.inr ⟨p, hp, hc, he⟩
      · intro i
        rw [List.foldl_cons, if_pos hq, (ih _).2]
        simp only [Finset.mem_insert, List.mem_cons]
        constructor
        · rintro (⟨h | h⟩ | ⟨p, hp, hc, he⟩)
          · exact Or.inr ⟨q, Or.inl rfl, hq, h.symm⟩
          · exact Or.inl h
          · exact Or.inr ⟨p, Or.inr hp, hc, he⟩
        · rintro (h | ⟨p, hp | hp, hc, he⟩)
          · exact Or.inl (Or.inr h)
          · exact Or.inl (Or.inl (hp ▸ he.symm))
          · exact Or.inr ⟨p, hp, hc, he⟩
    · constructor
      · intro x
        rw [List.foldl_cons, if_neg hq, (ih _).1]
        simp only [List.mem_cons]
        constructor
        · rintro (h | ⟨p, hp, hc, he⟩)
          · exact Or.inl h
          · exact Or.inr ⟨p, Or.inr hp, hc, he⟩
        · rintro (h | ⟨p, hp | hp, hc, he⟩)
          · exact Or.inl h
          · exact absurd (hp ▸ hc) hq
          · exact Or.inr ⟨p, hp, hc, he⟩
      · intro i
        rw [List.foldl_cons, if_neg hq, (ih _).2]
        simp only [List.mem_cons]
        constructor
        · rintro (h | ⟨p, hp, hc, he⟩)
          · exact Or.inl h
          · exact Or.inr ⟨p, Or.inr hp, hc, he⟩
        · rintro (h | ⟨p, hp | hp, hc, he⟩)
          · exact Or.inl h
          · exact absurd (hp ▸ hc) hq
          · exact Or.inr ⟨p, hp, hc, he⟩

theorem mem_doiPhase_dups {x : String} {scopus : List ScopusRow} {wos : List WosRow} :
    x ∈ (doiPhase scopus wos).1 ↔
      ∃ p ∈ wos.enum,
        (wosDoi p.2 ≠ "" ∧ wosDoi p.2 ∈ scopusDois scopus) ∧ p.2.processed_title = x := by
  unfold doiPhase
  rw [(doiPhase_foldl_spec scopus wos.enum (∅, ∅)).1 x]
  simp

theorem mem_doiPhase_matched {i : Nat} {scopus : List ScopusRow} {wos : List WosRow} :
    i ∈ (doiPhase scopus wos).2 ↔
      ∃ p ∈ wos.enum,
        (wosDoi p.2 ≠ "" ∧ wosDoi p.2 ∈ scopusDois scopus) ∧ p.1 = i := by
  unfold doiPhase
  rw [(doiPhase_foldl_spec scopus wos.enum (∅, ∅)).2 i]
  simp

theorem doiPhase_dups_empty_of_left_nil (wos : List WosRow) : (doiPhase [] wos).1 = ∅ := by
  apply Finset.eq_empty_of_forall_not_mem
  intro x hx
  obtain ⟨p, _, ⟨_, hmem⟩, _⟩ := mem_doiPhase_dups.mp hx
  rw [mem_scopusDois] at hmem
  obtain ⟨_, r, hr, _⟩ := hmem
  exact absurd hr (List.not_mem_nil r)

end DoiPhaseLemmas

theorem rowVerdict_short {scorer : String → String → Nat}
    {corpus : List (String × Option Int)} {threshold : Nat} {c : Candidate}
    (h : c.title.length < 5) : rowVerdict scorer corpus threshold c = false := by
  unfold rowVerdict
  rw [if_pos h]

theorem rowVerdict_of_none {scorer : String → String → Nat}
    {corpus : List (String × Option Int)} {threshold : Nat} {c : Candidate}
    (hlen : ¬ c.title.length < 5)
    (hext : extractOneBy (fun e => scorer c.title e.1) corpus = none) :
    rowVerdict scorer corpus threshold c = false := by
  unfold rowVerdict
  rw [if_neg hlen, hext]

theorem rowVerdict_of_some {scorer : String → String → Nat}
    {corpus : List (String × Option Int)} {threshold : Nat} {c : Candidate}
    {entry : String × Option Int} {score : Nat} (hlen : ¬ c.title.length < 5)
    (hext : extractOneBy (fun e => scorer c.title e.1) corpus = some (entry, score)) :
    rowVerdict scorer corpus threshold c =
      if score < threshold then false
      else
        match c.year, entry.2 with
        | some wy, some sy => if (wy - sy).natAbs > 1 then false else true
        | _, _ => true := by
  unfold rowVerdict
  rw [if_neg hlen, hext]

theorem rowVerdict_antitone {scorer : String → String → Nat}
    {corpus : List (String × Option Int)} {t₁ t₂ : Nat} {c : Candidate}
    (hle : t₁ ≤ t₂) (h : rowVerdict scorer corpus t₂ c = true) :
    rowVerdict scorer corpus t₁ c = true := by
  by_cases hlen : c.title.length < 5
  · rw [rowVerdict_short hlen] at h
    exact absurd h (by simp)
  · cases hext : extractOneBy (fun e => scorer c.title e.1) corpus with
    | none =>
      rw [rowVerdict_of_none hlen hext] at h
      exact absurd h (by simp)
    | some p =>
      obtain ⟨entry, score⟩ := p
      rw [rowVerdict_of_some hlen hext] at h
      rw [rowVerdict_of_some hlen hext]
      by_cases hs₂ : score < t₂
      · rw [if_pos hs₂] at h; exact absurd h (by simp)
      · rw [if_neg hs₂] at h
        rw [if_neg (by omega)]
        exact h

/-- C1. For every candidate whose fuzzy score reaches the threshold, the
verdict is "duplicate" exactly unless both years are known and differ by more
than one; in particular, against a corpus holding the identical title, a year
difference of 1 gives a duplicate and a year difference of 2 does not. -/
theorem year_corroboration :
    (∀ (scorer : String → String → Nat) (corpus : List (String × Option Int))
        (threshold : Nat) (c : Candidate) (entry : String × Option Int) (score : Nat),
      5 ≤ c.title.length →
      extractOneBy (fun e => scorer c.title e.1) corpus = some (entry, score) →
      threshold ≤ score →
      (rowVerdict scorer corpus threshold c = true ↔
        ¬ ∃ wy sy, c.year = some wy ∧ entry.2 = some sy ∧ 1 < (wy - sy).natAbs)) ∧
    (∀ (scorer : String → String → Nat) (t : String) (y : Int) (threshold : Nat),
      5 ≤ t.length → scorer t t = 100 → threshold ≤ 100 →
      rowVerdict scorer [(t, some y)] threshold ⟨t, some (y + 1)⟩ = true ∧
        rowVerdict scorer [(t, some y)] threshold ⟨t, some (y + 2)⟩ = false) := by
  constructor
  · intro scorer corpus threshold c entry score hlen hext hth
    rw [rowVerdict_of_some (by omega) hext, if_neg (by omega)]
    cases hw : c.year with
    | none =>
      show true = true ↔
        ¬∃ wy sy, (none : Option Int) = some wy ∧ entry.2 = some sy ∧ 1 < (wy - sy).natAbs
      simp
    | some wy =>
      cases hs : entry.2 with
      | none =>
        show true = true ↔
          ¬∃ wy' sy', some wy = some wy' ∧ (none : Option Int) = some sy' ∧
            1 < (wy' - sy').natAbs
        simp
      | some sy =>
        show (if (wy - sy).natAbs > 1 then false else true) = true ↔
          ¬∃ wy' sy', some wy = some wy' ∧ some sy = some sy' ∧ 1 < (wy' - sy').natAbs
        by_cases hgt : 1 < (wy - sy).natAbs
        · rw [if_pos (by omega)]
          simp only [Bool.false_eq_true, false_iff, not_not]
          exact ⟨wy, sy, rfl, rfl, hgt⟩
        · rw [if_neg (by omega)]
          simp only [true_iff]
          rintro ⟨wy', sy', hwy', hsy', hgt'⟩
          cases hwy'
          cases hsy'
          exact hgt hgt'
  · intro scorer t y threshold hlen hself hth
    have hext : extractOneBy (fun e => scorer t e.1) [(t, some y)] = some ((t, some y), 100) := by
      simp [extractOneBy, hself]
    constructor
    · rw [rowVerdict_of_some (c := ⟨t, some (y + 1)⟩)
        (by show ¬ t.length < 5; omega) hext, if_neg (by omega)]
      show (if ((y + 1) - y).natAbs > 1 then false else true) = true
      rw [if_neg (by omega)]
    · rw [rowVerdict_of_some (c := ⟨t, some (y + 2)⟩)
        (by show ¬ t.length < 5; omega) hext, if_neg (by omega)]
      show (if ((y + 2) - y).natAbs > 1 then false else true) = false
      rw [if_pos (by omega)]

/-- Concrete instance of `year_corroboration`: identical five-letter titles,
years 2001/2002 against a reference year 2000, at threshold 85. -/
theorem year_corroboration_witness :
    (rowVerdict (fun _ _ => 100) [("abcde", some (2000 : Int))] 85
        ⟨"abcde", some (2001 : Int)⟩ = true ↔
      ¬∃ wy sy, (some (2001 : Int)) = some wy ∧ (some (2000 : Int)) = some sy ∧
        1 < (wy - sy).natAbs) ∧
    (rowVerdict (fun _ _ => 100) [("abcde", some (2000 : Int))] 85
        ⟨"abcde", some ((2000 : Int) + 1)⟩ = true ∧
      rowVerdict (fun _ _ => 100) [("abcde", some (2000 : Int))] 85
        ⟨"abcde", some ((2000 : Int) + 2)⟩ = false) :=
  ⟨year_corroboration.1 (fun _ _ => 100) [("abcde", some (2000 : Int))] 85
      ⟨"abcde", some (2001 : Int)⟩ ("abcde", some (2000 : Int)) 100 (by decide) rfl
      (by decide),
    year_corroboration.2 (fun _ _ => 100) "abcde" 2000 85 (by decide) rfl (by decide)⟩

/-- C2. The fuzzy phase is partition-invariant: merging per-chunk result sets
by union equals processing the concatenation of the chunks sequentially, and
`crossDeduplicate` returns the same duplicate set for every worker count. -/
theorem parallel_invariance :
    (∀ (scorer : String → String → Nat) (corpus : List (String × Option Int))
        (threshold : Nat) (chunks : List (List Candidate)),
      chunks.foldl (fun acc ch => acc ∪ processChunk scorer corpus threshold ch) ∅ =
        processChunk scorer corpus threshold chunks.flatten) ∧
    (∀ (scorer : String → String → Nat) (scopus : List ScopusRow) (wos : List WosRow)
        (threshold c₁ c₂ : Nat),
      crossDeduplicate scorer scopus wos threshold c₁ =
        crossDeduplicate scorer scopus wos threshold c₂) := by
  constructor
  · intro scorer corpus threshold chunks
    rw [foldl_union_processChunk, Finset.empty_union]
  · intro scorer scopus wos threshold c₁ c₂
    rw [crossDeduplicate_eq, crossDeduplicate_eq]

/-- C5. Raising the threshold never creates new duplicates: for `t₁ < t₂`
the duplicate set at `t₂` is contained in the duplicate set at `t₁`. -/
theorem threshold_monotonicity (scorer : String → String → Nat) (scopus : List ScopusRow)
    (wos : List WosRow) (cpuCount t₁ t₂ : Nat) (hlt : t₁ < t₂) :
    crossDeduplicate scorer scopus wos t₂ cpuCount ⊆
      crossDeduplicate scorer scopus wos t₁ cpuCount := by
  intro x hx
  rw [crossDeduplicate_eq] at hx ⊢
  by_cases hemp : scopus = [] ∨ wos = []
  · rw [if_pos hemp] at hx
    exact absurd hx (Finset.not_mem_empty x)
  · rw [if_neg hemp] at hx ⊢
    rw [Finset.mem_union] at hx ⊢
    rcases hx with hx | hx
    · exact Or.inl hx
    · refine Or.inr ?_
      rw [mem_processChunk] at hx ⊢
      obtain ⟨c, hc, hv, ht⟩ := hx
      exact ⟨c, hc, rowVerdict_antitone (Nat.le_of_lt hlt) hv, ht⟩

/-- Concrete instance of `threshold_monotonicity`: thresholds 80 < 85 on a
one-row Scopus corpus and one-row WoS candidate set. -/
theorem threshold_monotonicity_witness :
    80 < 85 ∧
      crossDeduplicate (fun _ _ => 100) [⟨none, "alpha study", some 2020⟩]
          [⟨none, "alpha study", some 2020⟩] 85 8 ⊆
        crossDeduplicate (fun _ _ => 100) [⟨none, "alpha study", some 2020⟩]
          [⟨none, "alpha study", some 2020⟩] 80 8 :=
  ⟨by decide,
    threshold_monotonicity (fun _ _ => 100) [⟨none, "alpha study", some 2020⟩]
      [⟨none, "alpha study", some 2020⟩] 8 80 85 (by decide)⟩

/-- C4. The identifier phase flags a WoS row (by index) iff its lower-cased,
trimmed identifier is non-empty and equals some Scopus row's lower-cased,
trimmed identifier — independent of any title — and a flagged row's
`processed_title` enters the duplicate set. -/
theorem identifier_phase (scopus : List ScopusRow) (wos : List WosRow) (idx : Nat)
    (row : WosRow) (hrow : wos[idx]? = some row) :
    (idx ∈ (doiPhase scopus wos).2 ↔
      wosDoi row ≠ "" ∧ ∃ r ∈ scopus, ∃ d, r.doi = some d ∧ pyStrip (pyLower d) = wosDoi row) ∧
    (idx ∈ (doiPhase scopus wos).2 → row.processed_title ∈ (doiPhase scopus wos).1) := by
  constructor
  · rw [mem_doiPhase_matched]
    constructor
    · rintro ⟨p, hp, ⟨hne, hmem⟩, hpi⟩
      rw [← hpi] at hrow
      have hp' : wos[p.1]? = some p.2 := List.mk_mem_enum_iff_getElem?.mp (by
        obtain ⟨i, r⟩ := p; exact hp)
      rw [hp'] at hrow
      cases hrow
      rw [mem_scopusDois] at hmem
      exact ⟨hne, hmem.2⟩
    · rintro ⟨hne, r, hr, d, hd, hds⟩
      refine ⟨(idx, row), List.mk_mem_enum_iff_getElem?.mpr (by rw [hrow]), ⟨hne, ?_⟩, rfl⟩
      rw [mem_scopusDois]
      exact ⟨hne, r, hr, d, hd, hds⟩
  · intro hidx
    rw [mem_doiPhase_matched] at hidx
    obtain ⟨p, hp, hcond, hpi⟩ := hidx
    rw [← hpi] at hrow
    have hp' : wos[p.1]? = some p.2 := List.mk_mem_enum_iff_getElem?.mp (by
      obtain ⟨i, r⟩ := p; exact hp)
    rw [hp'] at hrow
    cases hrow
    rw [mem_doiPhase_dups]
    exact ⟨p, hp, hcond, rfl⟩

/-- Concrete instance of `identifier_phase`: the spec's scenario — reference
id `10.1/ABC`, candidate id `10.1/abc ` with unrelated titles — is flagged. -/
theorem identifier_phase_witness :
    (0 ∈ (doiPhase [⟨some "10.1/ABC", "reference title here", some 2020⟩]
        [⟨some "10.1/abc ", "totally different words", some 2020⟩]).2 ↔
      wosDoi ⟨some "10.1/abc ", "totally different words", some 2020⟩ ≠ "" ∧
        ∃ r ∈ [(⟨some "10.1/ABC", "reference title here", some 2020⟩ : ScopusRow)],
          ∃ d, r.doi = some d ∧
            pyStrip (pyLower d) = wosDoi ⟨some "10.1/abc ", "totally different words", some 2020⟩) ∧
    (0 ∈ (doiPhase [⟨some "10.1/ABC", "reference title here", some 2020⟩]
        [⟨some "10.1/abc ", "totally different words", some 2020⟩]).2 →
      "totally different words" ∈
        (doiPhase [⟨some "10.1/ABC", "reference title here", some 2020⟩]
          [⟨some "10.1/abc ", "totally different words", some 2020⟩]).1) :=
  identifier_phase [⟨some "10.1/ABC", "reference title here", some 2020⟩]
    [⟨some "10.1/abc ", "totally different words", some 2020⟩] 0
    ⟨some "10.1/abc ", "totally different words", some 2020⟩ rfl

/-- C8. A title shorter than 5 characters never enters any chunk's fuzzy
result set, so it is in the overall duplicate set exactly when the
identifier phase put it there. -/
theorem short_title_exclusion :
    (∀ (scorer : String → String → Nat) (corpus : List (String × Option Int))
        (threshold : Nat) (chunk : List Candidate) (t : String),
      t.length < 5 → t ∉ processChunk scorer corpus threshold chunk) ∧
    (∀ (scorer : String → String → Nat) (scopus : List ScopusRow) (wos : List WosRow)
        (threshold cpuCount : Nat) (t : String),
      t.length < 5 →
      (t ∈ crossDeduplicate scorer scopus wos threshold cpuCount ↔
        t ∈ (doiPhase scopus wos).1)) := by
  have hshort : ∀ (scorer : String → String → Nat) (corpus : List (String × Option Int))
      (threshold : Nat) (chunk : List Candidate) (t : String),
      t.length < 5 → t ∉ processChunk scorer corpus threshold chunk := by
    intro scorer corpus threshold chunk t hlen hmem
    rw [mem_processChunk] at hmem
    obtain ⟨c, _, hv, ht⟩ := hmem
    unfold rowVerdict at hv
    rw [if_pos (by rw [ht]; exact hlen)] at hv
    exact absurd hv (by simp)
  refine ⟨hshort, ?_⟩
  intro scorer scopus wos threshold cpuCount t hlen
  rw [crossDeduplicate_eq]
  by_cases hemp : scopus = [] ∨ wos = []
  · rw [if_pos hemp]
    rcases hemp with hemp | hemp
    · rw [hemp, doiPhase_dups_empty_of_left_nil]
    · rw [hemp]
      simp [doiPhase]
  · rw [if_neg hemp, Finset.mem_union]
    constructor
    · rintro (h | h)
      · exact h
      · exact absurd h (hshort _ _ _ _ _ hlen)
    · exact Or.inl

/-- Concrete instance of `short_title_exclusion`: the four-character title
`"abcd"` is not flagged even though the corpus holds the identical title. -/
theorem short_title_exclusion_witness :
    (("abcd" : String).length < 5 ∧
      "abcd" ∉ processChunk (fun _ _ => 100) [("abcd", some 2020)] 85
        [⟨"abcd", some 2020⟩]) ∧
    ("abcd" ∈ crossDeduplicate (fun _ _ => 100) [⟨none, "abcd", some 2020⟩]
        [⟨none, "abcd", some 2020⟩] 85 8 ↔
      "abcd" ∈ (doiPhase [⟨none, "abcd", some 2020⟩] [⟨none, "abcd", some 2020⟩]).1) :=
  ⟨⟨by decide,
      short_title_exclusion.1 (fun _ _ => 100) [("abcd", some 2020)] 85
        [⟨"abcd", some 2020⟩] "abcd" (by decide)⟩,
    short_title_exclusion.2 (fun _ _ => 100) [⟨none, "abcd", some 2020⟩]
      [⟨none, "abcd", some 2020⟩] 85 8 "abcd" (by decide)⟩

/-- ISSN normalization of `apply_post_merge_normalization`
(src/normalization.py lines 188-195): `.str.replace(r"[^0-9X]", "",
regex=True).str.upper()` — keep only digits and the (upper-case) character
`X`, then upper-case the result. The `.replace({"": pd.NA}).astype(str)`
prelude sends `""` to `"<NA>"`, which this filter also maps to `""`. -/
def normalize_issn (raw : String) : String :=
  (String.mk (raw.data.filter (fun c => c.isDigit || c == 'X'))).toUpper

/-- The claim's reading of the same step: a lowercase `x` is kept and then
upper-cased to `X`. -/
def normalizeIssnClaimed (raw : String) : String :=
  (String.mk (raw.data.filter (fun c => c.isDigit || c == 'X' || c == 'x'))).toUpper

theorem char_toUpper_fixed {c : Char} (h : (c.isDigit || c == 'X') = true) :
    c.toUpper = c := by
  rcases Bool.or_eq_true_iff.mp h with hd | hx
  · have hd' : 48 ≤ c.val ∧ c.val ≤ 57 := by simpa [Char.isDigit] using hd
    have h3 : c.val.toNat ≤ 57 := UInt32.toNat_le_of_le (by decide) hd'.2
    unfold Char.toUpper
    simp only [Char.toNat]
    rw [if_neg (by omega)]
  · rw [show c = 'X' from eq_of_beq hx]
    decide

theorem normalize_issn_eq (raw : String) :
    normalize_issn raw =
      String.mk ((raw.data.filter (fun c => c.isDigit || c == 'X')).map Char.toUpper) := by
  unfold normalize_issn
  rw [show (String.mk (raw.data.filter (fun c => c.isDigit || c == 'X'))).toUpper =
    String.map Char.toUpper (String.mk (raw.data.filter (fun c => c.isDigit || c == 'X')))
    from rfl]
  rw [String.map_eq]

theorem normalizeIssnClaimed_eq (raw : String) :
    normalizeIssnClaimed raw =
      String.mk
        ((raw.data.filter (fun c => c.isDigit || c == 'X' || c == 'x')).map Char.toUpper) := by
  unfold normalizeIssnClaimed
  rw [show (String.mk (raw.data.filter (fun c => c.isDigit || c == 'X' || c == 'x'))).toUpper =
    String.map Char.toUpper
      (String.mk (raw.data.filter (fun c => c.isDigit || c == 'X' || c == 'x')))
    from rfl]
  rw [String.map_eq]

/-- Counterexample input for C6: the code deletes the lowercase `x`
(`"1050124x"` becomes `"1050124"`), while the claim demands `"1050124X"`. -/
theorem normalize_issn_lowercase_x_counterexample :
    normalize_issn "1050124x" = "1050124" ∧
      normalizeIssnClaimed "1050124x" = "1050124X" ∧
      normalize_issn "1050124x" ≠ normalizeIssnClaimed "1050124x" := by
  rw [normalize_issn_eq, normalizeIssnClaimed_eq]
  refine ⟨by decide, by decide, by decide⟩

/-- C6 (amended). The normalization keeps exactly the digits and upper-case
`X` characters of the raw input (the trailing upper-casing is the identity on
that result); every output character is a digit or `X`, so a lowercase `x`
is removed, never preserved. -/
theorem issn_normalization (raw : String) :
    normalize_issn raw = String.mk (raw.data.filter (fun c => c.isDigit || c == 'X')) ∧
      (normalize_issn raw).data.all (fun c => c.isDigit || c == 'X') = true := by
  have hfix : (raw.data.filter (fun c => c.isDigit || c == 'X')).map Char.toUpper =
      raw.data.filter (fun c => c.isDigit || c == 'X') := by
    have hcongr := List.map_congr_left (l := raw.data.filter (fun c => c.isDigit || c == 'X'))
      (f := Char.toUpper) (g := id)
      (fun c hc => char_toUpper_fixed (List.mem_filter.mp hc).2)
    rw [hcongr, List.map_id]
  constructor
  · rw [normalize_issn_eq, hfix]
  · rw [normalize_issn_eq, hfix]
    rw [List.all_eq_true]
    intro c hc
    exact (List.mem_filter.mp hc).2

/-- The message printed by the `except` arm of the result-collection loop
(src/deduplication.py line 206): only the exception text, nothing else. -/
def workerErrorLog (e : String) : String := "   [Error] in worker: " ++ e

/-- Result-collection loop of `cross_deduplicate` (lines 199-206): each
worker outcome is either a duplicate set (`future.result()`) or a raised
exception; successes are merged by `duplicates.update`, failures only print.
Each outcome is tagged with the chunk that was submitted to that worker. -/
def mergeWorkerOutcomes (initial : Finset String)
    (outcomes : List (List Candidate × Except String (Finset String))) :
    Finset String × List String :=
  outcomes.foldl
    (fun acc p =>
      match p.2 with
      | Except.ok s => (acc.1 ∪ s, acc.2)
      | Except.error e => (acc.1, acc.2 ++ [workerErrorLog e]))
    (initial, [])

/-- Duplicate sets of the outcomes that did not raise. -/
def successSets (outcomes : List (List Candidate × Except String (Finset String))) :
    List (Finset String) :=
  outcomes.filterMap (fun p =>
    match p.2 with
    | Except.ok s => some s
    | Except.error _ => none)

/-- Chunks whose worker raised. -/
def failedChunks (outcomes : List (List Candidate × Except String (Finset String))) :
    List (List Candidate) :=
  outcomes.filterMap (fun p =>
    match p.2 with
    | Except.ok _ => none
    | Except.error _ => some p.1)

/-- Exception texts of the outcomes that raised. -/
def failureMessages (outcomes : List (List Candidate × Except String (Finset String))) :
    List String :=
  outcomes.filterMap (fun p =>
    match p.2 with
    | Except.ok _ => none
    | Except.error e => some e)

theorem mergeWorkerOutcomes_foldl_spec :
    ∀ (outcomes : List (List Candidate × Except String (Finset String)))
      (acc : Finset String × List String),
      outcomes.foldl
        (fun acc p =>
          match p.2 with
          | Except.ok s => (acc.1 ∪ s, acc.2)
          | Except.error e => (acc.1, acc.2 ++ [workerErrorLog e])) acc =
      ((successSets outcomes).foldl (fun a s => a ∪ s) acc.1,
        acc.2 ++ (failureMessages outcomes).map workerErrorLog) := by
  intro outcomes
  induction outcomes with
  | nil => intro acc; simp [successSets, failureMessages]
  | cons p t ih =>
    intro acc
    cases hp : p.2 with
    | ok s =>
      rw [List.foldl_cons]
      simp only [hp]
      rw [ih (acc.1 ∪ s, acc.2)]
      simp [successSets, failureMessages, hp]
    | error e =>
      rw [List.foldl_cons]
      simp only [hp]
      rw [ih (acc.1, acc.2 ++ [workerErrorLog e])]
      simp [successSets, failureMessages, hp]

/-- C9 (amended). A raising worker is caught: the pass completes, the merged
duplicate set is the initial set united with the successful chunks' sets
(a failed chunk contributes nothing), and each failure is reported by a log
line carrying exactly the exception text. -/
theorem worker_failure_degradation (initial : Finset String)
    (outcomes : List (List Candidate × Except String (Finset String))) :
    (mergeWorkerOutcomes initial outcomes).1 =
        (successSets outcomes).foldl (fun a s => a ∪ s) initial ∧
      (mergeWorkerOutcomes initial outcomes).2 =
        (failureMessages outcomes).map workerErrorLog := by
  unfold mergeWorkerOutcomes
  rw [mergeWorkerOutcomes_foldl_spec outcomes (initial, [])]
  exact ⟨rfl, by simp⟩

/-- Counterexample for C9's "context to identify the chunk": two runs in
which different chunks fail produce identical logs, so the report does not
identify the failing chunk. -/
theorem worker_log_counterexample :
    (mergeWorkerOutcomes ∅
          [([⟨"alpha title", none⟩], Except.error "boom"),
            ([⟨"beta title", none⟩], Except.ok ∅)]).2 =
        (mergeWorkerOutcomes ∅
          [([⟨"alpha title", none⟩], Except.ok ∅),
            ([⟨"beta title", none⟩], Except.error "boom")]).2 ∧
      failedChunks
          [([⟨"alpha title", none⟩], Except.error "boom"),
            ([⟨"beta title", none⟩], Except.ok ∅)] ≠
        failedChunks
          [([⟨"alpha title", none⟩], Except.ok ∅),
            ([⟨"beta title", none⟩], Except.error "boom")] := by
  exact ⟨rfl, by decide⟩

/-- `safe_text` (src/scimago_utils.py lines 49-54): a NaN/missing cell
becomes `""`, a string is returned as-is. -/
def safe_text (x : Option String) : String := x.getD ""

/-- `re.sub(r"\([^)]*\)", "", s)` on a character list: each `(` that is
followed by some `)` is removed together with everything up to and including
the first such `)`; a `(` with no later `)` matches nothing. The fuel is the
list length, which bounds the number of steps since every step consumes at
least one character. -/
def stripParensAux : Nat → List Char → List Char
  | 0, l => l
  | _ + 1, [] => []
  | fuel + 1, c :: rest =>
    if c = '(' ∧ ')' ∈ rest then
      stripParensAux fuel ((rest.dropWhile (fun d => !(d == ')'))).drop 1)
    else c :: stripParensAux fuel rest

/-- `re.sub(r"\([^)]*\)", "", s)` on a string. -/
def stripParens (s : String) : String := String.mk (stripParensAux s.data.length s.data)

/-- The fields of a combined-collection row read by
`assign_canonical_title_row`: `ISSN`, `Source`, and `Source title`. -/
structure VenueRow where
  issn : Option String
  source : Option String
  source_title : Option String
deriving DecidableEq

/-- `issn = safe_text(row.get("ISSN", "")).strip()`. -/
def venueIssn (row : VenueRow) : String := pyStrip (safe_text row.issn)

/-- `src = safe_text(row.get("Source", "")).strip().lower()`. -/
def venueSrc (row : VenueRow) : String := pyLower (pyStrip (safe_text row.source))

/-- `orig = safe_text(row.get("Source title", "")).strip()`. -/
def venueOrig (row : VenueRow) : String := pyStrip (safe_text row.source_title)

/-- Rule 1 of `assign_canonical_title_row` (src/scimago_utils.py lines 62-66):
with a non-empty ISSN present in the map and a non-Scopus source, return the
mapped canonical title (paren-stripped, trimmed) — but only if that mapped
title is non-blank; map values are the registry `Title` cells with NaN
modelled as `""` (`safe_text`). -/
def rule1Result (scimagoMap : List (String × String)) (row : VenueRow) : Option String :=
  if venueIssn row ≠ "" ∧ (scimagoMap.lookup (venueIssn row)).isSome ∧
      venueSrc row ≠ "scopus" then
    let cand := pyStrip ((scimagoMap.lookup (venueIssn row)).getD "")
    if cand ≠ "" then some (pyStrip (stripParens cand)) else none
  else none

/-- Rule 2 (lines 68-74): with no ISSN, a non-Scopus source, a non-empty
venue name and a non-empty map, fuzzy-match against the map's values and
accept only a score strictly above 90. -/
def rule2Result (scorer : String → String → Nat) (scimagoMap : List (String × String))
    (row : VenueRow) : Option String :=
  if venueIssn row = "" ∧ venueSrc row ≠ "scopus" ∧ venueOrig row ≠ "" ∧ scimagoMap ≠ [] then
    match extractOneBy (fun t => scorer (venueOrig row) t) (scimagoMap.map (fun p => p.2)) with
    | some (best, score) => if score > 90 then some (pyStrip (stripParens best)) else none
    | none => none
  else none

/-- `assign_canonical_title_row` (src/scimago_utils.py lines 57-77): rule 1,
else rule 2, else the original venue name paren-stripped and trimmed (or
returned as-is when empty). -/
def assign_canonical_title_row (scorer : String → String → Nat)
    (scimagoMap : List (String × String)) (row : VenueRow) : String :=
  match rule1Result scimagoMap row with
  | some t => t
  | none =>
    match rule2Result scorer scimagoMap row with
    | some t => t
    | none =>
      if venueOrig row ≠ "" then pyStrip (stripParens (venueOrig row)) else venueOrig row

section VenueResolverLemmas

variable {scorer : String → String → Nat} {scimagoMap : List (String × String)}
variable {row : VenueRow} {t : String}

theorem assign_of_rule1 (h : rule1Result scimagoMap row = some t) :
    assign_canonical_title_row scorer scimagoMap row = t := by
  unfold assign_canonical_title_row
  rw [h]

theorem assign_of_rule2 (h₁ : rule1Result scimagoMap row = none)
    (h₂ : rule2Result scorer scimagoMap row = some t) :
    assign_canonical_title_row scorer scimagoMap row = t := by
  unfold assign_canonical_title_row
  rw [h₁]
  show (match rule2Result scorer scimagoMap row with
    | some t => t
    | none =>
      if venueOrig row ≠ "" then pyStrip (stripParens (venueOrig row)) else venueOrig row) = t
  rw [h₂]

theorem assign_of_default (h₁ : rule1Result scimagoMap row = none)
    (h₂ : rule2Result scorer scimagoMap row = none) :
    assign_canonical_title_row scorer scimagoMap row =
      if venueOrig row ≠ "" then pyStrip (stripParens (venueOrig row)) else venueOrig row := by
  unfold assign_canonical_title_row
  rw [h₁]
  show (match rule2Result scorer scimagoMap row with
    | some t => t
    | none =>
      if venueOrig row ≠ "" then pyStrip (stripParens (venueOrig row)) else venueOrig row) = _
  rw [h₂]

theorem rule1Result_none_of_src (h : venueSrc row = "scopus") :
    rule1Result scimagoMap row = none := by
  unfold rule1Result
  rw [if_neg]
  rintro ⟨-, -, hs⟩
  exact hs h

theorem rule2Result_none_of_src (h : venueSrc row = "scopus") :
    rule2Result scorer scimagoMap row = none := by
  unfold rule2Result
  rw [if_neg]
  rintro ⟨-, hs, -, -⟩
  exact hs h

end VenueResolverLemmas

/-- C7 (amended). The resolver's rules in order: (1) a non-empty ISSN found
in the map, with a non-reference source, returns the mapped canonical title
paren-stripped and trimmed, provided the mapped title is non-blank; (2) with
no ISSN, a non-reference source and a non-empty venue name, a fuzzy match is
accepted only above score 90, below or at 90 the original (paren-stripped,
trimmed) name is returned; (3) a blank mapped title or a reference-source
record falls through to the original name. -/
theorem venue_resolver_rules (scorer : String → String → Nat)
    (scimagoMap : List (String × String)) (row : VenueRow) :
    (∀ v : String, venueIssn row ≠ "" → scimagoMap.lookup (venueIssn row) = some v →
      venueSrc row ≠ "scopus" → pyStrip v ≠ "" →
      assign_canonical_title_row scorer scimagoMap row = pyStrip (stripParens (pyStrip v))) ∧
    (∀ (best : String) (score : Nat), venueIssn row = "" → venueSrc row ≠ "scopus" →
      venueOrig row ≠ "" →
      extractOneBy (fun t => scorer (venueOrig row) t) (scimagoMap.map (fun p => p.2)) =
        some (best, score) →
      90 < score →
      assign_canonical_title_row scorer scimagoMap row = pyStrip (stripParens best)) ∧
    (∀ (best : String) (score : Nat), venueIssn row = "" → venueSrc row ≠ "scopus" →
      venueOrig row ≠ "" →
      extractOneBy (fun t => scorer (venueOrig row) t) (scimagoMap.map (fun p => p.2)) =
        some (best, score) →
      score ≤ 90 →
      assign_canonical_title_row scorer scimagoMap row =
        pyStrip (stripParens (venueOrig row))) ∧
    (∀ v : String, venueIssn row ≠ "" → scimagoMap.lookup (venueIssn row) = some v →
      venueSrc row ≠ "scopus" → pyStrip v = "" →
      assign_canonical_title_row scorer scimagoMap row =
        if venueOrig row ≠ "" then pyStrip (stripParens (venueOrig row)) else venueOrig row) ∧
    (venueSrc row = "scopus" →
      assign_canonical_title_row scorer scimagoMap row =
        if venueOrig row ≠ "" then pyStrip (stripParens (venueOrig row)) else venueOrig row) := by
  refine ⟨?_, ?_, ?_, ?_, ?_⟩
  · intro v hi hl hs hv
    apply assign_of_rule1
    unfold rule1Result
    rw [hl]
    rw [if_pos ⟨hi, by simp, hs⟩]
    show (if pyStrip ((some v).getD "") ≠ "" then
      some (pyStrip (stripParens (pyStrip ((some v).getD "")))) else none) = _
    simp only [Option.getD_some]
    rw [if_pos hv]
  · intro best score hi hs ho hext hsc
    have hmapne : scimagoMap ≠ [] := by
      intro hmap
      rw [hmap] at hext
      exact absurd hext (by simp [extractOneBy])
    apply assign_of_rule2
    · unfold rule1Result
      rw [if_neg]
      rintro ⟨hi', -, -⟩
      exact hi' hi
    · unfold rule2Result
      rw [if_pos ⟨hi, hs, ho, hmapne⟩, hext]
      show (if score > 90 then some (pyStrip (stripParens best)) else none) = _
      rw [if_pos hsc]
  · intro best score hi hs ho hext hsc
    have h₂ : rule2Result scorer scimagoMap row = none := by
      unfold rule2Result
      by_cases hg : venueIssn row = "" ∧ venueSrc row ≠ "scopus" ∧ venueOrig row ≠ "" ∧
          scimagoMap ≠ []
      · rw [if_pos hg, hext]
        show (if score > 90 then some (pyStrip (stripParens best)) else none) = _
        rw [if_neg (by omega)]
      · rw [if_neg hg]
    have h₁ : rule1Result scimagoMap row = none := by
      unfold rule1Result
      rw [if_neg]
      rintro ⟨hi', -, -⟩
      exact hi' hi
    rw [assign_of_default h₁ h₂, if_pos ho]
  · intro v hi hl hs hv
    have h₁ : rule1Result scimagoMap row = none := by
      unfold rule1Result
      rw [hl]
      rw [if_pos ⟨hi, by simp, hs⟩]
      show (if pyStrip ((some v).getD "") ≠ "" then
        some (pyStrip (stripParens (pyStrip ((some v).getD "")))) else none) = _
      simp only [Option.getD_some]
      rw [if_neg (by simp [hv])]
    have h₂ : rule2Result scorer scimagoMap row = none := by
      unfold rule2Result
      rw [if_neg]
      rintro ⟨hi', -, -, -⟩
      exact hi hi'
    exact assign_of_default h₁ h₂
  · intro hs
    exact assign_of_default (rule1Result_none_of_src hs) (rule2Result_none_of_src hs)

/-- Counterexample for C7 as stated: rule 1's premises all hold (non-empty
ISSN `11112222` present in the map, source `wos`), so the claim requires the
mapped canonical title — which is blank — yet the code returns the original
venue name instead. -/
theorem venue_resolver_counterexample :
    venueIssn ⟨some "11112222", some "wos", some "Some Journal"⟩ = "11112222" ∧
      List.lookup "11112222" [("11112222", "")] = some "" ∧
      venueSrc ⟨some "11112222", some "wos", some "Some Journal"⟩ = "wos" ∧
      assign_canonical_title_row (fun _ _ => 0) [("11112222", "")]
        ⟨some "11112222", some "wos", some "Some Journal"⟩ = "Some Journal" ∧
      pyStrip (stripParens "") = "" ∧
      ("Some Journal" : String) ≠ "" := by
  refine ⟨by decide, by decide, by decide, by decide, by decide, by decide⟩

/-- Concrete instances of `venue_resolver_rules`, one per rule: an ISSN hit
rewrites the venue name; an above-90 fuzzy score rewrites it; a
below-threshold fuzzy score keeps the original name; a blank mapped title
falls through; a Scopus-source record falls through. -/
theorem venue_resolver_rules_witness :
    (assign_canonical_title_row (fun _ _ => 0) [("11112222", "Real Journal (misc)")]
        ⟨some "11112222", some "wos", some "Some Journal"⟩ =
      pyStrip (stripParens (pyStrip "Real Journal (misc)"))) ∧
    (assign_canonical_title_row (fun _ _ => 95) [("11112222", "Registry Journal")]
        ⟨none, some "wos", some "Registry Journal"⟩ =
      pyStrip (stripParens "Registry Journal")) ∧
    (assign_canonical_title_row (fun _ _ => 80) [("11112222", "Real Journal (misc)")]
        ⟨none, some "wos", some "Close Journal"⟩ =
      pyStrip (stripParens (venueOrig ⟨none, some "wos", some "Close Journal"⟩))) ∧
    (assign_canonical_title_row (fun _ _ => 0) [("22223333", "   ")]
        ⟨some "22223333", some "wos", some "Orig Name"⟩ =
      if venueOrig ⟨some "22223333", some "wos", some "Orig Name"⟩ ≠ "" then
        pyStrip (stripParens (venueOrig ⟨some "22223333", some "wos", some "Orig Name"⟩))
      else venueOrig ⟨some "22223333", some "wos", some "Orig Name"⟩) ∧
    (assign_canonical_title_row (fun _ _ => 0) [("11112222", "Real Journal (misc)")]
        ⟨some "11112222", some "Scopus", some "Kept Name"⟩ =
      if venueOrig ⟨some "11112222", some "Scopus", some "Kept Name"⟩ ≠ "" then
        pyStrip (stripParens (venueOrig ⟨some "11112222", some "Scopus", some "Kept Name"⟩))
      else venueOrig ⟨some "11112222", some "Scopus", some "Kept Name"⟩) :=
  ⟨(venue_resolver_rules (fun _ _ => 0) [("11112222", "Real Journal (misc)")]
      ⟨some "11112222", some "wos", some "Some Journal"⟩).1 "Real Journal (misc)"
      (by decide) (by decide) (by decide) (by decide),
    (venue_resolver_rules (fun _ _ => 95) [("11112222", "Registry Journal")]
      ⟨none, some "wos", some "Registry Journal"⟩).2.1 "Registry Journal" 95
      (by decide) (by decide) (by decide) rfl (by decide),
    (venue_resolver_rules (fun _ _ => 80) [("11112222", "Real Journal (misc)")]
      ⟨none, some "wos", some "Close Journal"⟩).2.2.1 "Real Journal (misc)" 80
      (by decide) (by decide) (by decide) rfl (by decide),
    (venue_resolver_rules (fun _ _ => 0) [("22223333", "   ")]
      ⟨some "22223333", some "wos", some "Orig Name"⟩).2.2.2.1 "   "
      (by decide) (by decide) (by decide) (by decide),
    (venue_resolver_rules (fun _ _ => 0) [("11112222", "Real Journal (misc)")]
      ⟨some "11112222", some "Scopus", some "Kept Name"⟩).2.2.2.2 (by decide)⟩

/-- A row of the combined collection at the final-cleanup step of `main`
(src/main.py lines 183-190): the `Title` column after `astype(str)`, the
`Year` column after `pd.to_numeric(..., errors="coerce")` (`none` = NaN;
pandas `drop_duplicates` treats NaN keys as mutually equal, as `Option`
equality does), and the remaining columns abstracted as `rest`. -/
structure FinalRow where
  title : String
  year : Option Int
  rest : String
deriving DecidableEq

/-- The `subset=["Title", "Year"]` key of the final `drop_duplicates`. -/
def finalKey (r : FinalRow) : String × Option Int := (r.title, r.year)

/-- `combined_df["Title"] = combined_df["Title"].astype(str).str.strip()`. -/
def trimTitle (r : FinalRow) : FinalRow := { r with title := pyStrip r.title }

/-- `drop_duplicates(subset=["Title", "Year"], keep="first")`: keep a row iff
its key was not seen earlier. -/
def dropDupAux : List FinalRow → Finset (String × Option Int) → List FinalRow
  | [], _ => []
  | r :: t, seen =>
    if finalKey r ∈ seen then dropDupAux t seen
    else r :: dropDupAux t (insert (finalKey r) seen)

/-- The final-cleanup block of `main` (src/main.py lines 183-190): trim the
titles, then drop exact `(Title, Year)` duplicates keeping the first. -/
def finalCleanup (rows : List FinalRow) : List FinalRow :=
  dropDupAux (rows.map trimTitle) ∅

theorem dropDupAux_nodup :
    ∀ (l : List FinalRow) (seen : Finset (String × Option Int)),
      ((dropDupAux l seen).map finalKey).Nodup ∧
        ∀ r ∈ dropDupAux l seen, finalKey r ∉ seen := by
  intro l
  induction l with
  | nil => intro seen; simp [dropDupAux]
  | cons q t ih =>
    intro seen
    by_cases hq : finalKey q ∈ seen
    · rw [dropDupAux, if_pos hq]
      exact ih seen
    · rw [dropDupAux, if_neg hq]
      obtain ⟨ihn, ihs⟩ := ih (insert (finalKey q) seen)
      refine ⟨?_, ?_⟩
      · rw [List.map_cons, List.nodup_cons]
        refine ⟨?_, ihn⟩
        intro hmem
        obtain ⟨r, hr, hkey⟩ := List.mem_map.mp hmem
        exact (ihs r hr) (hkey ▸ Finset.mem_insert_self _ _)
      · intro r hr
        rcases List.mem_cons.mp hr with hr | hr
        · exact hr ▸ hq
        · intro hseen
          exact (ihs r hr) (Finset.mem_insert_of_mem hseen)

theorem dropDupAux_find :
    ∀ (l : List FinalRow) (seen : Finset (String × Option Int)) (r' : FinalRow),
      r' ∈ dropDupAux l seen →
        finalKey r' ∉ seen ∧
          l.find? (fun r => decide (finalKey r = finalKey r')) = some r' := by
  intro l
  induction l with
  | nil => intro seen r' hr'; simp [dropDupAux] at hr'
  | cons q t ih =>
    intro seen r' hr'
    by_cases hq : finalKey q ∈ seen
    · rw [dropDupAux, if_pos hq] at hr'
      obtain ⟨hns, hfind⟩ := ih seen r' hr'
      have hne : finalKey q ≠ finalKey r' := fun he => hns (he ▸ hq)
      refine ⟨hns, ?_⟩
      rw [List.find?_cons_of_neg _ (by simp [hne]), hfind]
    · rw [dropDupAux, if_neg hq] at hr'
      rcases List.mem_cons.mp hr' with hr' | hr'
      · subst hr'
        exact ⟨hq, List.find?_cons_of_pos _ (by simp)⟩
      · obtain ⟨hns, hfind⟩ := ih _ r' hr'
        have hne : finalKey q ≠ finalKey r' := fun he =>
          hns (he ▸ Finset.mem_insert_self _ _)
        refine ⟨fun hseen => hns (Finset.mem_insert_of_mem hseen), ?_⟩
        rw [List.find?_cons_of_neg _ (by simp [hne]), hfind]

theorem dropDupAux_covers :
    ∀ (l : List FinalRow) (seen : Finset (String × Option Int)) (r : FinalRow),
      r ∈ l →
        finalKey r ∈ seen ∨ ∃ r' ∈ dropDupAux l seen, finalKey r' = finalKey r := by
  intro l
  induction l with
  | nil => intro seen r hr; simp at hr
  | cons q t ih =>
    intro seen r hr
    by_cases hq : finalKey q ∈ seen
    · rw [dropDupAux, if_pos hq]
      rcases List.mem_cons.mp hr with hr | hr
      · exact Or.inl (hr ▸ hq)
      · exact ih seen r hr
    · rw [dropDupAux, if_neg hq]
      rcases List.mem_cons.mp hr with hr | hr
      · exact Or.inr ⟨q, List.mem_cons_self q _, (hr ▸ rfl)⟩
      · rcases ih (insert (finalKey q) seen) r hr with hseen | ⟨r', hr', hkey⟩
        · rcases Finset.mem_insert.mp hseen with heq | hseen
          · exact Or.inr ⟨q, List.mem_cons_self q _, heq.symm⟩
          · exact Or.inl hseen
        · exact Or.inr ⟨r', List.mem_cons_of_mem q hr', hkey⟩

/-- C10. After the final cleanup the saved collection holds at most one row
per `(trimmed Title, numeric Year)` key: the kept keys are pairwise distinct,
every kept row is the first trimmed input row bearing its key, and every
input row's key is represented. -/
theorem final_exact_dedup (rows : List FinalRow) :
    ((finalCleanup rows).map finalKey).Nodup ∧
      (∀ r' ∈ finalCleanup rows,
        (rows.map trimTitle).find? (fun r => decide (finalKey r = finalKey r')) = some r') ∧
      (∀ r ∈ rows, ∃ r' ∈ finalCleanup rows, finalKey r' = finalKey (trimTitle r)) := by
  refine ⟨(dropDupAux_nodup (rows.map trimTitle) ∅).1, ?_, ?_⟩
  · intro r' hr'
    exact (dropDupAux_find (rows.map trimTitle) ∅ r' hr').2
  · intro r hr
    rcases dropDupAux_covers (rows.map trimTitle) ∅ (trimTitle r)
        (List.mem_map_of_mem trimTitle hr) with hseen | hex
    · exact absurd hseen (Finset.not_mem_empty _)
    · exact hex

/-- Concrete instance of `final_exact_dedup`: `" A "` and `"A"` in year 2020
collapse to the first occurrence; the `NaN`-year row is kept. -/
theorem final_exact_dedup_witness :
    ((finalCleanup [⟨" A ", some 2020, "one"⟩, ⟨"A", some 2020, "two"⟩,
        ⟨"B", none, "three"⟩]).map finalKey).Nodup ∧
      ([⟨" A ", some 2020, "one"⟩, ⟨"A", some 2020, "two"⟩,
          ⟨"B", none, "three"⟩].map trimTitle).find?
        (fun r => decide (finalKey r = finalKey ⟨"A", some 2020, "one"⟩)) =
          some ⟨"A", some 2020, "one"⟩ ∧
      ∃ r' ∈ finalCleanup [⟨" A ", some 2020, "one"⟩, ⟨"A", some 2020, "two"⟩,
          ⟨"B", none, "three"⟩],
        finalKey r' = finalKey (trimTitle ⟨"A", some 2020, "two"⟩) :=
  ⟨(final_exact_dedup [⟨" A ", some 2020, "one"⟩, ⟨"A", some 2020, "two"⟩,
      ⟨"B", none, "three"⟩]).1,
    (final_exact_dedup [⟨" A ", some 2020, "one"⟩, ⟨"A", some 2020, "two"⟩,
      ⟨"B", none, "three"⟩]).2.1 ⟨"A", some 2020, "one"⟩ (by decide),
    (final_exact_dedup [⟨" A ", some 2020, "one"⟩, ⟨"A", some 2020, "two"⟩,
      ⟨"B", none, "three"⟩]).2.2 ⟨"A", some 2020, "two"⟩ (by decide)⟩

/-- A row of the combined collection as `enrich_with_scimago` consumes it
(src/sjr_analysis.py). `idx` is the row's pandas index label in
`combined_df`; `issn`, `year` and `source_title` are the join columns (the
post-merge normalization leaves `ISSN` a plain string, `""` when absent);
`payload` stands for the record's remaining original columns. -/
structure CombinedRow where
  idx : Nat
  issn : String
  year : Int
  source_title : String
  payload : String
deriving DecidableEq

/-- One row of `scimago_exp`: the registry after renaming `Title` to
`Source title`, paren-stripping and trimming it, and exploding the
comma-separated `Issn` column to one ISSN per row; `sjr` stands for the
registry metric columns (`SJR`, quartile, H index, ...). -/
structure ScimagoEntry where
  issn : String
  year : Int
  source_title : String
  sjr : String
deriving DecidableEq

/-- Stage 1 (lines 104-111): `pd.merge(combined_df, scimago_exp, how="left",
left_on=["ISSN", "Year"], right_on=["Issn", "Year"])` — each combined row
paired with every registry row agreeing on ISSN and year, or with `none`
(NaN registry columns) when there is no match; output rows get a fresh
`RangeIndex`. -/
def byIssn (combined : List CombinedRow) (sc : List ScimagoEntry) :
    List (CombinedRow × Option ScimagoEntry) :=
  combined.flatMap (fun r =>
    let ms := sc.filter (fun e => e.issn == r.issn && e.year == r.year)
    if ms.isEmpty then [(r, none)] else ms.map (fun e => (r, some e)))

/-- `scimago_exp["Source title"].dropna().unique().tolist()`: first-seen
order, duplicates removed. -/
def uniqueKeepFirst : List String → Finset String → List String
  | [], _ => []
  | s :: t, seen =>
    if s ∈ seen then uniqueKeepFirst t seen else s :: uniqueKeepFirst t (insert s seen)

/-- `_best_title_match` (src/sjr_analysis.py lines 27-45): `None` on a blank
title, otherwise the best `WRatio` match of the lower-cased title against
the registry titles, accepted at `score >= threshold`. -/
def bestTitleMatch (scorer : String → String → Nat) (threshold : Nat) (title : String)
    (choices : List String) : Option String :=
  if pyStrip title = "" then none
  else
    match extractOneBy (fun t => scorer (pyLower title) t) choices with
    | none => none
    | some (best, score) => if score ≥ threshold then some best else none

/-- One row of the reconciled frames. `match1` holds the registry columns
from the stage-1 merge (`Issn`, `SJR`, ... unsuffixed); `match2` holds the
`_scimago`-suffixed columns that the stage-2 merge appends (the stage-2
right side is suffixed because the left side already carries the unsuffixed
names from stage 1). -/
structure ERow where
  orig : CombinedRow
  match1 : Option ScimagoEntry
  match2 : Option ScimagoEntry
deriving DecidableEq

/-- Stage 2 (lines 116-136): rows unmatched in stage 1 get their
`Source title` replaced by the best fuzzy registry title (rows with no
accepted match are dropped by `dropna(subset=["Source title"])`), then are
left-merged with the registry on `(Source title, Year)`; their stage-1
registry columns stay NaN. -/
def byTitle (scorer : String → String → Nat) (threshold : Nat) (sc : List ScimagoEntry)
    (noMatch : List CombinedRow) : List ERow :=
  (noMatch.filterMap (fun r =>
      (bestTitleMatch scorer threshold r.source_title
          (uniqueKeepFirst (sc.map (fun e => e.source_title)) ∅)).map
        (fun t => { r with source_title := t }))).flatMap
    (fun r =>
      let ms := sc.filter (fun e => e.source_title == r.source_title && e.year == r.year)
      if ms.isEmpty then [ERow.mk r none none] else ms.map (fun e => ERow.mk r none (some e)))

/-- Column consolidation (lines 167-192): each metric column takes the
stage-1 value when present, else the `_scimago` stage-2 value
(`combine_first`), and the technical `_scimago` columns are dropped. -/
structure OutRow where
  issn : String
  year : Int
  source_title : String
  payload : String
  sjr : Option String
deriving DecidableEq

/-- Consolidate one reconciled row into an output record. -/
def consolidate (e : ERow) : OutRow :=
  { issn := e.orig.issn, year := e.orig.year, source_title := e.orig.source_title,
    payload := e.orig.payload,
    sjr :=
      match e.match1 with
      | some m => some m.sjr
      | none => e.match2.map (fun m => m.sjr) }

/-- `enrich_with_scimago` (src/sjr_analysis.py lines 59-194). The final
reconciliation follows the source exactly: `matched` is the concatenation of
the stage-1 and stage-2 matched rows re-indexed by `ignore_index=True`
(hence `matched.index = RangeIndex(len(matched))`), and `unmatched` is
`combined_df.loc[~combined_df.index.isin(matched.index)]` — a comparison of
the original index labels against that fresh `RangeIndex`. -/
def enrich_with_scimago (scorer : String → String → Nat) (fuzzyThreshold : Nat)
    (combined : List CombinedRow) (sc : List ScimagoEntry) : List OutRow :=
  if combined = [] ∨ sc = [] then
    combined.map (fun r => ⟨r.issn, r.year, r.source_title, r.payload, none⟩)
  else
    let byI := byIssn combined sc
    let matchedIssn := (byI.filter (fun p => p.2.isSome)).map (fun p => ERow.mk p.1 p.2 none)
    let noMatch := (byI.filter (fun p => p.2.isNone)).map (fun p => p.1)
    let matchedTitle :=
      (byTitle scorer fuzzyThreshold sc noMatch).filter (fun e => e.match1.isSome)
    let matched := matchedIssn ++ matchedTitle
    let unmatched := combined.filter (fun r => !(decide (r.idx ∈ List.range matched.length)))
    (matched ++ unmatched.map (fun r => ERow.mk r none none)).map consolidate

/-- C3 evidence. Two combined rows at index labels 0 and 1: row 1 matches
the registry by ISSN+Year, row 0 (`payload = "paper-zero"`) matches nothing
in either stage. The enriched output drops row 0 entirely — it duplicates
row 1 instead — because `matched.index` after `ignore_index=True` is the
`RangeIndex {0}`, which swallows the unmatched label 0. -/
theorem enrich_drops_unmatched_record :
    enrich_with_scimago (fun _ _ => 0) 90
        [⟨0, "", 2020, "Obscure Venue", "paper-zero"⟩,
          ⟨1, "11112222", 2020, "Known Venue", "paper-one"⟩]
        [⟨"11112222", 2020, "Known Venue", "1.5"⟩] =
      [⟨"11112222", 2020, "Known Venue", "paper-one", some "1.5"⟩,
        ⟨"11112222", 2020, "Known Venue", "paper-one", none⟩] ∧
      "paper-zero" ∉
        (enrich_with_scimago (fun _ _ => 0) 90
            [⟨0, "", 2020, "Obscure Venue", "paper-zero"⟩,
              ⟨1, "11112222", 2020, "Known Venue", "paper-one"⟩]
            [⟨"11112222", 2020, "Known Venue", "1.5"⟩]).map (fun r => r.payload) := by
  refine ⟨by decide, by decide⟩

end Pipeline
